import Mathlib

/-!
Verification of the DNA fingerprinting module (`backend/dna_utils.py`).

Strings are modelled as `List Char` (Python `str` is a sequence of Unicode
code points, `ord` = `Char.toNat`).  Byte strings are `List Nat` with entries
below 256.  Python `float` results that are exactly representable (all the
arithmetic in this module is over dyadic rationals, so Python's binary
floating point computes them exactly) are modelled as `ℚ`; `round(x, n)`
is Python's correctly-rounded half-even decimal rounding, modelled exactly
on `ℚ`.  Functions that can raise return `Except PyError` / `Option`.
-/

namespace DnaUtils

/-- The characters CPython's `int(str, base)` treats as whitespace
(`Py_UNICODE_ISSPACE`, determined against CPython case by case): ASCII space,
`\t`..`\r` (9–13), NEL, NBSP and the Unicode space/separator code points. -/
def isPySpace (c : Char) : Bool :=
  c.toNat == 32 || (9 ≤ c.toNat && c.toNat ≤ 13) ||
  c.toNat == 133 || c.toNat == 160 || c.toNat == 5760 ||
  (8192 ≤ c.toNat && c.toNat ≤ 8202) || c.toNat == 8232 || c.toNat == 8233 ||
  c.toNat == 8239 || c.toNat == 8287 || c.toNat == 12288

/-- The code-point ranges of the Unicode decimal digits (category `Nd`) that
CPython's `_PyUnicode_TransformDecimalAndSpaceToASCII` maps to ASCII digits
before integer parsing.  Each run consists of decades starting at digit value
0, so a member's value is `(codepoint - lo) % 10`.  Enumerated against this
machine's CPython by probing every code point. -/
def ndRanges : List (Nat × Nat) :=
  [(48, 57), (1632, 1641), (1776, 1785), (1984, 1993), (2406, 2415), (2534, 2543),
   (2662, 2671), (2790, 2799), (2918, 2927), (3046, 3055), (3174, 3183), (3302, 3311),
   (3430, 3439), (3558, 3567), (3664, 3673), (3792, 3801), (3872, 3881), (4160, 4169),
   (4240, 4249), (6112, 6121), (6160, 6169), (6470, 6479), (6608, 6617), (6784, 6793),
   (6800, 6809), (6992, 7001), (7088, 7097), (7232, 7241), (7248, 7257), (42528, 42537),
   (43216, 43225), (43264, 43273), (43472, 43481), (43504, 43513), (43600, 43609),
   (44016, 44025), (65296, 65305), (66720, 66729), (68912, 68921), (69734, 69743),
   (69872, 69881), (69942, 69951), (70096, 70105), (70384, 70393), (70736, 70745),
   (70864, 70873), (71248, 71257), (71360, 71369), (71472, 71481), (71904, 71913),
   (72016, 72025), (72784, 72793), (73040, 73049), (73120, 73129), (92768, 92777),
   (92864, 92873), (93008, 93017), (120782, 120831), (123200, 123209), (123632, 123641),
   (125264, 125273), (130032, 130041)]

/-- The decimal value of a Unicode decimal digit, `none` otherwise. -/
def pyDigitVal (c : Char) : Option Nat :=
  (ndRanges.find? fun r => decide (r.1 ≤ c.toNat ∧ c.toNat ≤ r.2)).map
    fun r => (c.toNat - r.1) % 10

/-- CPython's `_PyUnicode_TransformDecimalAndSpaceToASCII`, per character:
Unicode whitespace becomes an ASCII space, a Unicode decimal digit becomes
the ASCII digit of its value, everything else is unchanged.  `int(s, base)`
applies this to the whole string before parsing. -/
def toAsciiDS (c : Char) : Char :=
  if isPySpace c then ' '
  else
    match pyDigitVal c with
    | some v => Char.ofNat (48 + v)
    | none => c

/-- A base-16 digit as accepted by Python's `int(s, 16)`:
`0`–`9`, `a`–`f` or `A`–`F`. -/
def isHexDig (c : Char) : Bool :=
  (48 ≤ c.toNat && c.toNat ≤ 57) || (97 ≤ c.toNat && c.toNat ≤ 102) ||
  (65 ≤ c.toNat && c.toNat ≤ 70)

/-- A lowercase hex digit `0`–`9`, `a`–`f`: the alphabet of the identifiers
the module itself produces (SHA-256 hexdigests). -/
def isLowerHexDigit (c : Char) : Bool :=
  (48 ≤ c.toNat && c.toNat ≤ 57) || (97 ≤ c.toNat && c.toNat ≤ 102)

/-- Scanner for the part of a base-16 integer literal after its first digit:
hex digits, single underscores only between digits, then optional trailing
whitespace.  Mirrors CPython's digit loop in `long_from_string`. -/
def digitsTail : List Char → Bool
  | [] => true
  | c :: rest =>
    if c = '_' then
      (match rest with
       | [] => false
       | c2 :: _ => isHexDig c2) && digitsTail rest
    else if isHexDig c then digitsTail rest
    else isPySpace c && rest.all isPySpace

/-- Scanner for the digit part of a base-16 literal.  `afterBase` is true
when a `0x`/`0X` base marker was just consumed, in which case CPython allows
one underscore before the first digit (`int("0x_ab", 16)` succeeds). -/
def digitsStart (afterBase : Bool) (l : List Char) : Bool :=
  match l with
  | [] => false
  | c :: rest =>
    if c = '_' then
      afterBase &&
        (match rest with
         | [] => false
         | c2 :: _ => isHexDig c2) && digitsTail rest
    else isHexDig c && digitsTail rest

/-- The parse of a digit-and-space-normalized string by CPython's
`long_from_string` at base 16: optional surrounding whitespace, an optional
`+`/`-` sign, an optional `0x`/`0X` base marker, then at least one hex digit
with single underscores allowed only between digits (or right after the base
marker). -/
def acceptsHexAscii (s : List Char) : Bool :=
  let s1 := s.dropWhile isPySpace
  let s2 := match s1 with
    | c :: r => if c = '+' ∨ c = '-' then r else c :: r
    | [] => []
  match s2 with
  | c :: c2 :: rest =>
    if c = '0' ∧ (c2 = 'x' ∨ c2 = 'X') then digitsStart true rest
    else digitsStart false (c :: c2 :: rest)
  | other => digitsStart false other

/-- Whether CPython's `int(s, 16)` parses `s` without raising `ValueError`:
normalize Unicode digits and whitespace to ASCII, then run the base-16
literal parser. -/
def pyAcceptsHex (s : List Char) : Bool :=
  acceptsHexAscii (s.map toAsciiDS)

/-- A Python value as seen by `validate_dna`: either a `str` (a list of code
points) or any non-string value (the `isinstance(dna, str)` guard only
distinguishes these two cases). -/
inductive PyVal where
  | str (s : List Char)
  | nonStr
deriving DecidableEq

/-- `validate_dna` from `dna_utils.py`: reject non-strings, reject lengths
other than 64, then try `int(dna, 16)` and report whether it raised. -/
def validate_dna : PyVal → Bool
  | .str dna =>
    if dna.length = 64 then pyAcceptsHex dna else false
  | .nonStr => false

/-- `validate_dna` applied to a string argument. -/
def validateStr (s : List Char) : Bool := validate_dna (.str s)

/-! ## SHA-256 (`hashlib.sha256`), over byte lists, words as `Nat mod 2^32` -/

/-- Reduce to a 32-bit word. -/
def w32 (n : Nat) : Nat := n % 4294967296

/-- Right rotation of a 32-bit word by `r` (for `0 < r < 32`). -/
def rotr (r x : Nat) : Nat := x / 2 ^ r + x % 2 ^ r * 2 ^ (32 - r)

/-- SHA-256 `Ch(x,y,z) = (x ∧ y) ⊕ (¬x ∧ z)`. -/
def shaCh (x y z : Nat) : Nat := (x &&& y) ^^^ ((x ^^^ 4294967295) &&& z)

/-- SHA-256 `Maj(x,y,z)`. -/
def shaMaj (x y z : Nat) : Nat := (x &&& y) ^^^ (x &&& z) ^^^ (y &&& z)

/-- SHA-256 `Σ₀`. -/
def bsig0 (x : Nat) : Nat := rotr 2 x ^^^ rotr 13 x ^^^ rotr 22 x

/-- SHA-256 `Σ₁`. -/
def bsig1 (x : Nat) : Nat := rotr 6 x ^^^ rotr 11 x ^^^ rotr 25 x

/-- SHA-256 `σ₀`. -/
def ssig0 (x : Nat) : Nat := rotr 7 x ^^^ rotr 18 x ^^^ x / 2 ^ 3

/-- SHA-256 `σ₁`. -/
def ssig1 (x : Nat) : Nat := rotr 17 x ^^^ rotr 19 x ^^^ x / 2 ^ 10

/-- The SHA-256 round constants `K₀..K₆₃` (FIPS 180-4), written in decimal. -/
def shaK : List Nat :=
  [1116352408, 1899447441, 3049323471, 3921009573, 961987163,
   1508970993, 2453635748, 2870763221, 3624381080, 310598401,
   607225278, 1426881987, 1925078388, 2162078206, 2614888103,
   3248222580, 3835390401, 4022224774, 264347078, 604807628,
   770255983, 1249150122, 1555081692, 1996064986, 2554220882,
   2821834349, 2952996808, 3210313671, 3336571891, 3584528711,
   113926993, 338241895, 666307205, 773529912, 1294757372,
   1396182291, 1695183700, 1986661051, 2177026350, 2456956037,
   2730485921, 2820302411, 3259730800, 3345764771, 3516065817,
   3600352804, 4094571909, 275423344, 430227734, 506948616,
   659060556, 883997877, 958139571, 1322822218, 1537002063,
   1747873779, 1955562222, 2024104815, 2227730452, 2361852424,
   2428436474, 2756734187, 3204031479, 3329325298]

/-- The eight 32-bit words of a SHA-256 state / digest. -/
structure Hash8 where
  a : Nat
  b : Nat
  c : Nat
  d : Nat
  e : Nat
  f : Nat
  g : Nat
  h : Nat

/-- The SHA-256 initial hash value `H⁽⁰⁾` (FIPS 180-4), written in decimal. -/
def shaH0 : Hash8 :=
  ⟨1779033703, 3144134277, 1013904242, 2773480762, 1359893119, 2600822924, 528734635, 1541459225⟩

/-- Group a byte list into big-endian 32-bit words (16 words per block). -/
def toWords : List Nat → List Nat
  | b0 :: b1 :: b2 :: b3 :: rest =>
    (b0 * 16777216 + b1 * 65536 + b2 * 256 + b3) :: toWords rest
  | _ => []

/-- Extend a message schedule by `fuel` further words
(`Wₜ = σ₁(Wₜ₋₂) + Wₜ₋₇ + σ₀(Wₜ₋₁₅) + Wₜ₋₁₆ mod 2³²`). -/
def schedule (ws : List Nat) : Nat → List Nat
  | 0 => ws
  | fuel + 1 =>
    let n := ws.length
    schedule
      (ws ++ [w32 (ssig1 (ws.getD (n - 2) 0) + ws.getD (n - 7) 0 +
                   ssig0 (ws.getD (n - 15) 0) + ws.getD (n - 16) 0)]) fuel

/-- The 64 SHA-256 compression rounds, consuming the round constants and the
message schedule in lockstep. -/
def rounds : List Nat → List Nat → Hash8 → Hash8
  | k :: ks, w :: ws, s =>
    let t1 := w32 (s.h + bsig1 s.e + shaCh s.e s.f s.g + k + w)
    let t2 := w32 (bsig0 s.a + shaMaj s.a s.b s.c)
    rounds ks ws ⟨w32 (t1 + t2), s.a, s.b, s.c, w32 (s.d + t1), s.e, s.f, s.g⟩
  | _, _, s => s

/-- Compress one 64-byte block into the running state. -/
def processBlock (s : Hash8) (block : List Nat) : Hash8 :=
  let t := rounds shaK (schedule (toWords block) 48) s
  ⟨w32 (s.a + t.a), w32 (s.b + t.b), w32 (s.c + t.c), w32 (s.d + t.d),
   w32 (s.e + t.e), w32 (s.f + t.f), w32 (s.g + t.g), w32 (s.h + t.h)⟩

/-- Fold the compression function over the 64-byte blocks of a message. -/
def processBlocks (s : Hash8) (l : List Nat) : Hash8 :=
  match l with
  | [] => s
  | x :: xs =>
    processBlocks (processBlock s ((x :: xs).take 64)) ((x :: xs).drop 64)
termination_by l.length
decreasing_by simp; omega

/-- The 8-byte big-endian encoding of the message bit length. -/
def lenBytes (n : Nat) : List Nat :=
  [n / 2 ^ 56 % 256, n / 2 ^ 48 % 256, n / 2 ^ 40 % 256, n / 2 ^ 32 % 256,
   n / 2 ^ 24 % 256, n / 2 ^ 16 % 256, n / 2 ^ 8 % 256, n % 256]

/-- SHA-256 padding: append `0x80`, zero bytes up to 56 mod 64, then the
64-bit big-endian bit length. -/
def shaPad (msg : List Nat) : List Nat :=
  msg ++ [128] ++ List.replicate ((119 - msg.length % 64) % 64) 0 ++
    lenBytes (8 * msg.length)

/-- SHA-256 of a byte list, as the final eight-word state. -/
def sha256 (msg : List Nat) : Hash8 := processBlocks shaH0 (shaPad msg)

/-- The 32 digest bytes of a state, big-endian per word. -/
def wordBytes (w : Nat) : List Nat :=
  [w / 2 ^ 24 % 256, w / 2 ^ 16 % 256, w / 2 ^ 8 % 256, w % 256]

/-- The 32 digest bytes of a SHA-256 state. -/
def digestBytes (s : Hash8) : List Nat :=
  wordBytes s.a ++ wordBytes s.b ++ wordBytes s.c ++ wordBytes s.d ++
  wordBytes s.e ++ wordBytes s.f ++ wordBytes s.g ++ wordBytes s.h

/-- The lowercase hex character of a nibble (`%x` rendering). -/
def hexChar (n : Nat) : Char :=
  if n < 10 then Char.ofNat (48 + n) else Char.ofNat (87 + n)

/-- The two lowercase hex characters of a byte. -/
def byteHex (b : Nat) : List Char := [hexChar (b / 16 % 16), hexChar (b % 16)]

/-- `hashlib.sha256(msg).hexdigest()`: the 64 lowercase hex characters of
the digest. -/
def hexdigest (msg : List Nat) : List Char := (digestBytes (sha256 msg)).flatMap byteHex

/-! ## `json.dumps(..., sort_keys=True)` canonicalization -/

/-- A Python value as `json.dumps` sees it.  A number (`int` or `float`) is
carried as `numLit` with its rendered text: CPython serializes a float by its
deterministic `repr`, a pure function of the float value, and no claim here
depends on a number other than through that rendering. -/
inductive PyJson where
  | null
  | bool (b : Bool)
  | numLit (render : List Char)
  | str (s : List Char)
  | arr (elems : List PyJson)
  | obj (fields : List (List Char × PyJson))

/-- A Python float, by the rendering `repr`/`json.dumps` gives it. -/
structure PyFloat where
  render : List Char

/-- Four lowercase hex characters of a code unit (`\uXXXX` payload). -/
def hex4 (n : Nat) : List Char :=
  [hexChar (n / 4096 % 16), hexChar (n / 256 % 16), hexChar (n / 16 % 16), hexChar (n % 16)]

/-- `json.dumps` escaping of one character with the default `ensure_ascii`:
short escapes for quote, backslash and the C0 controls that have them, plain
output for printable ASCII `0x20`–`0x7e`, and `\uXXXX` (a surrogate pair
above `0xffff`) for everything else. -/
def escChar (c : Char) : List Char :=
  if c = '"' then ['\\', '"']
  else if c = '\\' then ['\\', '\\']
  else if c.toNat = 10 then ['\\', 'n']
  else if c.toNat = 13 then ['\\', 'r']
  else if c.toNat = 9 then ['\\', 't']
  else if c.toNat = 8 then ['\\', 'b']
  else if c.toNat = 12 then ['\\', 'f']
  else if 32 ≤ c.toNat && c.toNat ≤ 126 then [c]
  else if c.toNat < 65536 then '\\' :: 'u' :: hex4 c.toNat
  else
    ('\\' :: 'u' :: hex4 (55296 + (c.toNat - 65536) / 1024)) ++
    ('\\' :: 'u' :: hex4 (56320 + (c.toNat - 65536) % 1024))

/-- A JSON string literal: escaped content between double quotes. -/
def jsonQuote (s : List Char) : List Char :=
  '"' :: s.flatMap escChar ++ ['"']

/-- Python string `≤` (lexicographic by code point), the order `sort_keys`
sorts object keys by. -/
def strLe (a b : List Char) : Bool :=
  match a, b with
  | [], _ => true
  | _ :: _, [] => false
  | c :: cs, d :: ds =>
    if c.toNat < d.toNat then true
    else if d.toNat < c.toNat then false
    else strLe cs ds

/-- Insertion step of sorting rendered object fields by key. -/
def insertPair (p : List Char × List Char) :
    List (List Char × List Char) → List (List Char × List Char)
  | [] => [p]
  | q :: qs => if strLe p.1 q.1 then p :: q :: qs else q :: insertPair p qs

/-- Sort rendered object fields by key (Python `sorted` on dict items). -/
def sortPairs : List (List Char × List Char) → List (List Char × List Char)
  | [] => []
  | p :: ps => insertPair p (sortPairs ps)

/-- Join rendered items with `json.dumps`'s default item separator `", "`. -/
def sepJoin (l : List (List Char)) : List Char :=
  match l with
  | [] => []
  | x :: xs => x ++ xs.flatMap fun y => ',' :: ' ' :: y

mutual
/-- `json.dumps(v, sort_keys=True)` with default separators `", "`/`": "`:
object keys are rendered depth-first and each object's fields are emitted
sorted by key.  (Sorting the rendered fields by key equals sorting before
rendering: rendering does not change keys and dict keys are unique.) -/
def dumps : PyJson → List Char
  | .null => "null".toList
  | .bool true => "true".toList
  | .bool false => "false".toList
  | .numLit r => r
  | .str s => jsonQuote s
  | .arr es => '[' :: sepJoin (dumpsList es) ++ [']']
  | .obj fs =>
    Char.ofNat 123 ::
      sepJoin ((sortPairs (dumpsFields fs)).map fun kv =>
        jsonQuote kv.1 ++ ':' :: ' ' :: kv.2) ++ [Char.ofNat 125]

/-- Render a list of JSON values. -/
def dumpsList : List PyJson → List (List Char)
  | [] => []
  | e :: es => dumps e :: dumpsList es

/-- Render the values of an object's fields, keeping their keys. -/
def dumpsFields : List (List Char × PyJson) → List (List Char × List Char)
  | [] => []
  | (k, v) :: fs => (k, dumps v) :: dumpsFields fs
end

/-! ## The fingerprint operations of `dna_utils.py` -/

/-- `generate_dna` from `dna_utils.py`: canonicalize the parameter record
(JSON with sorted keys), hash with SHA-256 and keep the first 64 hexdigest
characters (the whole digest).  `json_str.encode()` is UTF-8, and the
`ensure_ascii` rendering is pure ASCII, so the bytes are the code points. -/
def generate_dna (prompt : List Char) (temperature top_p : PyFloat)
    (model : List Char) : List Char :=
  let data : PyJson := .obj
    [("prompt".toList, .str prompt),
     ("temperature".toList, .numLit temperature.render),
     ("top_p".toList, .numLit top_p.render),
     ("model".toList, .str model),
     ("version".toList, .str "1.0".toList)]
  let json_str := dumps data
  let hash_hex := hexdigest (json_str.map Char.toNat)
  hash_hex.take 64

/-- `generate_persona_dna` from `dna_utils.py`: same canonicalize-and-hash
path over the persona record; `traits` is an arbitrary string-keyed dict. -/
def generate_persona_dna (persona_name : List Char)
    (traits : List (List Char × PyJson)) : List Char :=
  let data : PyJson := .obj
    [("persona".toList, .str persona_name),
     ("traits".toList, .obj traits),
     ("type".toList, .str "persona_dna".toList),
     ("version".toList, .str "1.0".toList)]
  let json_str := dumps data
  (hexdigest (json_str.map Char.toNat)).take 64

/-! ## Rounding (Python `round(x, ndigits)`) -/

/-- Round a rational to the nearest integer, ties to even (Python / IEEE
`round`).  For the dyadic values arising in this module Python's float
`round(x, n)` is the exact decimal rounding of the exact value, which this
models on `ℚ`. -/
def rndHalfEven (q : ℚ) : ℤ :=
  if q - Int.floor q < 1 / 2 then Int.floor q
  else if 1 / 2 < q - Int.floor q then Int.floor q + 1
  else if Even (Int.floor q) then Int.floor q
  else Int.floor q + 1

/-- Python `round(x, 1)` on an exactly-represented value. -/
def round1 (q : ℚ) : ℚ := (rndHalfEven (10 * q) : ℚ) / 10

/-- Python `round(x, 2)` on an exactly-represented value. -/
def round2 (q : ℚ) : ℚ := (rndHalfEven (100 * q) : ℚ) / 100

/-! ## `decode_dna` -/

/-- The result dict of `decode_dna`.  `temperature` and `top_p` are the
estimated sampling parameters (dyadic, hence float-exact, modelled on `ℚ`). -/
structure DecodeResult where
  temperature : ℚ
  top_p : ℚ
  model : List Char
  dna : List Char
  note : List Char

/-- The `model_map` dict of `decode_dna`: first identifier character to
estimated model name. -/
def model_map : List (Char × List Char) :=
  [('0', "dolphin-phi:latest".toList),
   ('1', "llama2:latest".toList),
   ('2', "mistral:latest".toList),
   ('3', "gpt-4".toList)]

/-- `decode_dna` from `dna_utils.py`: checksum the character codes, estimate
temperature via `mod 20` and top_p via `mod 9`, pick the model from
`model_map` by the first character with `dolphin-phi:latest` as default.
Indexing `dna[0]` raises `IndexError` on the empty string, modelled as
`none`; no other input fails. -/
def decode_dna (dna : List Char) : Option DecodeResult :=
  match dna with
  | [] => none
  | c0 :: _ =>
    let char_sum := (dna.map Char.toNat).sum
    some
      { temperature := round1 (1 / 10 + ((char_sum % 20 : Nat) : ℚ) * (1 / 10)),
        top_p := round1 (1 / 10 + ((char_sum % 9 : Nat) : ℚ) * (1 / 10)),
        model := (model_map.lookup c0).getD ("dolphin-phi:latest".toList),
        dna := dna,
        note := "Parameters estimated from DNA pattern".toList }

/-! ## `remix_dna` and `mutate_dna` -/

/-- A raised Python exception, as the operations here surface it. -/
inductive PyError where
  | valueError (msg : List Char)
deriving DecidableEq

/-- `remix_dna` from `dna_utils.py`: raise `ValueError` unless both inputs
pass `validate_dna`, coerce an out-of-range crossover point to 32, then
splice `dna_a[:cp] + dna_b[cp:]`. -/
def remix_dna (dna_a dna_b : List Char) (crossover_point : Int) :
    Except PyError (List Char) :=
  if !(validateStr dna_a && validateStr dna_b) then
    .error (.valueError ("Invalid DNA format".toList))
  else
    let cp : Int := if crossover_point < 1 ∨ 64 ≤ crossover_point then 32
                    else crossover_point
    .ok (dna_a.take cp.toNat ++ dna_b.drop cp.toNat)

/-- The `hex_chars` alphabet `random.choice` draws replacements from. -/
def hex_chars : List Char := "0123456789abcdef".toList

/-- The per-position mutation loop of `mutate_dna`.  The random source is
passed explicitly: `randoms i` is the `random.random()` draw (in `[0,1)`)
decided at position `i`, and `choices i` the `random.choice(hex_chars)`
index used if that position mutates. -/
def mutateChars (mutation_rate : ℚ) (randoms : Nat → ℚ) (choices : Nat → Fin 16) :
    Nat → List Char → List Char
  | _, [] => []
  | i, c :: rest =>
    (if randoms i < mutation_rate then hex_chars.getD (choices i).val c else c) ::
      mutateChars mutation_rate randoms choices (i + 1) rest

/-- `mutate_dna` from `dna_utils.py`: raise `ValueError` unless the input
passes `validate_dna`, then independently rewrite each position with
probability `mutation_rate` to a random hex digit. -/
def mutate_dna (dna : List Char) (mutation_rate : ℚ)
    (randoms : Nat → ℚ) (choices : Nat → Fin 16) : Except PyError (List Char) :=
  if validateStr dna then .ok (mutateChars mutation_rate randoms choices 0 dna)
  else .error (.valueError ("Invalid DNA format".toList))

/-! ## `analyze_dna_compatibility` -/

/-- Python `str.isdigit` restricted to the ASCII digits; within strings that
pass `validate_dna` the two coincide (no other Unicode digit-like character
survives the `int(·, 16)` parse). -/
def pyIsDigit (c : Char) : Bool := 48 ≤ c.toNat && c.toNat ≤ 57

/-- The character-class histogram `analyze_dna_compatibility` computes for
each input. -/
structure CharPatterns where
  vowels : Nat
  consonants : Nat
  numbers : Nat
deriving DecidableEq

/-- One input's histogram: vowels `aeiou`, consonants `b`–`z` minus vowels,
decimal digits. -/
def patternsOf (s : List Char) : CharPatterns :=
  { vowels := s.countP fun c => "aeiou".toList.contains c,
    consonants := s.countP fun c => "bcdfghjklmnpqrstvwxyz".toList.contains c,
    numbers := s.countP pyIsDigit }

/-- The success dict of `analyze_dna_compatibility`.  `similarity_percentage`
is dyadic (a multiple of 1/16), so the float arithmetic and its `round` are
exact and modelled on `ℚ`. -/
structure CompatReport where
  similarity_percentage : ℚ
  differences : Nat
  recommended_crossover : Nat
  patterns_a : CharPatterns
  patterns_b : CharPatterns
  compatibility : List Char
deriving DecidableEq

/-- `analyze_dna_compatibility` returns either the error dict
`{"error": "Invalid DNA format"}` or the full report dict. -/
inductive CompatResult where
  | error (msg : List Char)
  | ok (report : CompatReport)
deriving DecidableEq

/-- `analyze_dna_compatibility` from `dna_utils.py`: error dict unless both
inputs validate; otherwise Hamming distance over `zip`, similarity
percentage, crossover recommendation and compatibility label (both compared
against the unrounded similarity, as in the source). -/
def analyze_dna_compatibility (dna_a dna_b : List Char) : CompatResult :=
  if !(validateStr dna_a && validateStr dna_b) then
    .error ("Invalid DNA format".toList)
  else
    let differences := (dna_a.zip dna_b).countP fun p => p.1 != p.2
    let similarity : ℚ := (64 - (differences : ℚ)) / 64 * 100
    .ok
      { similarity_percentage := round2 similarity,
        differences := differences,
        recommended_crossover := if 50 < similarity then 32 else 16,
        patterns_a := patternsOf dna_a,
        patterns_b := patternsOf dna_b,
        compatibility :=
          if 70 < similarity then "High".toList
          else if 40 < similarity then "Medium".toList
          else "Low".toList }

/-! ## Hamming distance -/

/-- The Hamming distance between two strings: the number of positions (up to
the shorter length) where they differ. -/
def hammingDistance (a b : List Char) : Nat :=
  (List.range (min a.length b.length)).countP fun i => a.getD i ' ' != b.getD i ' '

/-! ## Basic lemmas -/

/-- A nibble renders to a lowercase hex digit. -/
lemma isLowerHexDigit_hexChar : ∀ m : Nat, m < 16 → isLowerHexDigit (hexChar m) = true := by
  decide

/-- Every character of a `flatMap byteHex` rendering is some nibble's hex
character. -/
lemma exists_nibble_of_mem_flatMap {c : Char} :
    ∀ {l : List Nat}, c ∈ l.flatMap byteHex → ∃ m, m < 16 ∧ c = hexChar m := by
  intro l hl
  rcases List.mem_flatMap.mp hl with ⟨b, -, hc⟩
  simp only [byteHex, List.mem_cons, List.mem_singleton, List.not_mem_nil, or_false] at hc
  rcases hc with hc | hc
  · exact ⟨b / 16 % 16, Nat.mod_lt _ (by norm_num), hc⟩
  · exact ⟨b % 16, Nat.mod_lt _ (by norm_num), hc⟩

/-- A hexdigest consists of lowercase hex digits. -/
lemma hexdigest_all_lower (msg : List Nat) :
    (hexdigest msg).all isLowerHexDigit = true := by
  rw [List.all_eq_true]
  intro c hc
  rcases exists_nibble_of_mem_flatMap (l := digestBytes (sha256 msg)) hc with ⟨m, hm, rfl⟩
  exact isLowerHexDigit_hexChar m hm

/-- A hexdigest has 64 characters. -/
lemma hexdigest_length (msg : List Nat) : (hexdigest msg).length = 64 := rfl

/-- A lowercase hex digit is a hex digit. -/
lemma isHexDig_of_lower {c : Char} (h : isLowerHexDigit c = true) : isHexDig c = true := by
  simp only [isLowerHexDigit, Bool.or_eq_true, Bool.and_eq_true, decide_eq_true_eq] at h
  simp only [isHexDig, Bool.or_eq_true, Bool.and_eq_true, decide_eq_true_eq]
  omega

/-- A lowercase hex digit is not whitespace. -/
lemma not_isPySpace_of_lower {c : Char} (h : isLowerHexDigit c = true) :
    isPySpace c = false := by
  simp only [isLowerHexDigit, Bool.or_eq_true, Bool.and_eq_true, decide_eq_true_eq] at h
  simp only [isPySpace, Bool.or_eq_false_iff, Bool.and_eq_false_iff, beq_eq_false_iff_ne,
    ne_eq, decide_eq_false_iff_not, not_le]
  omega

/-- A lowercase hex digit has a code point other than a given one outside
both digit ranges. -/
lemma lower_toNat {c : Char} (h : isLowerHexDigit c = true) :
    (48 ≤ c.toNat ∧ c.toNat ≤ 57) ∨ (97 ≤ c.toNat ∧ c.toNat ≤ 102) := by
  simp only [isLowerHexDigit, Bool.or_eq_true, Bool.and_eq_true, decide_eq_true_eq] at h
  omega

/-- Characters are equal iff their code points are. -/
lemma char_eq_iff_toNat {c d : Char} : c = d ↔ c.toNat = d.toNat := by
  constructor
  · rintro rfl; rfl
  · intro h
    rw [← Char.ofNat_toNat c, h, Char.ofNat_toNat]

/-- Normalization fixes a lowercase hex digit. -/
lemma toAsciiDS_lower {c : Char} (h : isLowerHexDigit c = true) : toAsciiDS c = c := by
  have hsp := not_isPySpace_of_lower h
  rcases lower_toNat h with hd | hl
  · -- an ASCII digit: the first `ndRanges` entry matches and maps it to itself
    have hfind : pyDigitVal c = some ((c.toNat - 48) % 10) := by
      rw [pyDigitVal, show ndRanges = (48, 57) :: ndRanges.tail from rfl,
        List.find?_cons_of_pos _ (by simpa using hd)]
      rfl
    simp only [toAsciiDS, hsp, Bool.false_eq_true, if_false, hfind]
    have h10 : (c.toNat - 48) % 10 = c.toNat - 48 := Nat.mod_eq_of_lt (by omega)
    rw [h10, show 48 + (c.toNat - 48) = c.toNat by omega]
    exact Char.ofNat_toNat c
  · -- `a`..`f`: no decimal-digit range matches
    have hnone : (ndRanges.find? fun r => decide (r.1 ≤ c.toNat ∧ c.toNat ≤ r.2)) = none := by
      rw [List.find?_eq_none]
      intro r hr
      fin_cases hr <;> simp <;> omega
    have hfind : pyDigitVal c = none := by
      rw [pyDigitVal, hnone]
      rfl
    simp [toAsciiDS, hsp, hfind]

/-- The digit scanner accepts any all-lowercase-hex tail. -/
lemma digitsTail_of_lower : ∀ {l : List Char}, l.all isLowerHexDigit = true →
    digitsTail l = true := by
  intro l
  induction l with
  | nil => intro _; rfl
  | cons c rest ih =>
    intro h
    rw [List.all_cons, Bool.and_eq_true] at h
    have hne : ¬ c = '_' := by
      intro hc; subst hc; simp [isLowerHexDigit] at h
    have hstep : digitsTail (c :: rest) = digitsTail rest := by
      simp [digitsTail, hne, isHexDig_of_lower h.1]
    rw [hstep]
    exact ih h.2

/-- The digit scanner accepts any nonempty all-lowercase-hex string. -/
lemma digitsStart_of_lower {l : List Char} (hne : l ≠ [])
    (h : l.all isLowerHexDigit = true) : digitsStart false l = true := by
  cases l with
  | nil => exact absurd rfl hne
  | cons c rest =>
    rw [List.all_cons, Bool.and_eq_true] at h
    have hu : ¬ c = '_' := by
      intro hc; subst hc; simp [isLowerHexDigit] at h
    simp [digitsStart, hu, isHexDig_of_lower h.1, digitsTail_of_lower h.2]
/-- The ASCII-level literal parser accepts any nonempty all-lowercase-hex
string. -/
lemma acceptsHexAscii_of_lower {l : List Char} (hne : l ≠ [])
    (h : l.all isLowerHexDigit = true) : acceptsHexAscii l = true := by
  cases l with
  | nil => exact absurd rfl hne
  | cons c rest =>
    rw [List.all_cons, Bool.and_eq_true] at h
    have hsp := not_isPySpace_of_lower h.1
    have hsign : ¬ (c = '+' ∨ c = '-') := by
      rintro (rfl | rfl) <;> simp [isLowerHexDigit] at h
    rw [acceptsHexAscii]
    simp only [List.dropWhile_cons, hsp, Bool.false_eq_true, if_false, if_neg hsign]
    cases rest with
    | nil =>
      show digitsStart false [c] = true
      exact digitsStart_of_lower (by simp) (by simp [h.1])
    | cons c2 rest2 =>
      rw [List.all_cons, Bool.and_eq_true] at h
      have hx : ¬ (c = '0' ∧ (c2 = 'x' ∨ c2 = 'X')) := by
        rintro ⟨-, rfl | rfl⟩ <;> simp [isLowerHexDigit] at h
      show (if c = '0' ∧ (c2 = 'x' ∨ c2 = 'X') then digitsStart true rest2
            else digitsStart false (c :: c2 :: rest2)) = true
      rw [if_neg hx]
      refine digitsStart_of_lower (by simp) ?_
      simp [h.1, h.2.1, h.2.2]

/-- `int(s, 16)` accepts any nonempty all-lowercase-hex string. -/
lemma pyAcceptsHex_of_lower {s : List Char} (hne : s ≠ [])
    (h : s.all isLowerHexDigit = true) : pyAcceptsHex s = true := by
  rw [pyAcceptsHex]
  have hmap : s.map toAsciiDS = s := by
    rw [List.all_eq_true] at h
    calc s.map toAsciiDS = s.map id := List.map_congr_left fun c hc => toAsciiDS_lower (h c hc)
    _ = s := List.map_id s
  rw [hmap]
  exact acceptsHexAscii_of_lower hne h

/-- A 64-character all-lowercase-hex string passes `validate_dna`. -/
lemma validateStr_of_lower {s : List Char} (hlen : s.length = 64)
    (h : s.all isLowerHexDigit = true) : validateStr s = true := by
  rw [validateStr, validate_dna, if_pos hlen]
  exact pyAcceptsHex_of_lower (by rintro rfl; simp at hlen) h

/-- A string passing `validate_dna` has exactly 64 characters. -/
lemma length_of_validateStr {s : List Char} (h : validateStr s = true) :
    s.length = 64 := by
  rw [validateStr, validate_dna] at h
  by_cases hl : s.length = 64
  · exact hl
  · rw [if_neg hl] at h
    exact absurd h (by simp)

/-! ## Lemmas on rounding -/

/-- Half-even rounding of an integer is the integer. -/
lemma rndHalfEven_intCast (n : ℤ) : rndHalfEven (n : ℚ) = n := by
  rw [rndHalfEven, Int.floor_intCast]
  rw [if_pos]
  simp

/-- Half-even rounding is nonnegative on nonnegative input. -/
lemma rndHalfEven_nonneg {q : ℚ} (h : 0 ≤ q) : 0 ≤ rndHalfEven q := by
  have hfl : (0 : ℤ) ≤ Int.floor q := Int.floor_nonneg.mpr h
  rw [rndHalfEven]
  split_ifs <;> omega

/-- Half-even rounding does not exceed an integer upper bound. -/
lemma rndHalfEven_le {q : ℚ} {n : ℤ} (h : q ≤ (n : ℚ)) : rndHalfEven q ≤ n := by
  have hfl : Int.floor q ≤ n := by
    rw [← Int.floor_intCast (α := ℚ) n]
    exact Int.floor_le_floor h
  have hq : Int.floor q = n → q - Int.floor q ≤ 0 := by
    intro he
    rw [he]
    have hle := Int.floor_le q
    rw [he] at hle
    linarith
  rw [rndHalfEven]
  split_ifs with h1 h2 h3
  · exact hfl
  · rcases lt_or_eq_of_le hfl with hlt | he
    · omega
    · have := hq he
      linarith
  · exact hfl
  · rcases lt_or_eq_of_le hfl with hlt | he
    · omega
    · have := hq he
      linarith

/-- `round(x, 1)` is exact on integer multiples of `1/10`. -/
lemma round1_exact (n : ℤ) : round1 ((n : ℚ) / 10) = (n : ℚ) / 10 := by
  rw [round1, show (10 : ℚ) * ((n : ℚ) / 10) = (n : ℚ) by ring, rndHalfEven_intCast]

/-- `round(x, 2)` stays within the bounds `0` and `100`. -/
lemma round2_bounds {q : ℚ} (h0 : 0 ≤ q) (h1 : q ≤ 100) :
    0 ≤ round2 q ∧ round2 q ≤ 100 := by
  have l0 : (0 : ℤ) ≤ rndHalfEven (100 * q) := rndHalfEven_nonneg (by linarith)
  have l1 : rndHalfEven (100 * q) ≤ (10000 : ℤ) := by
    refine rndHalfEven_le ?_
    push_cast
    linarith
  constructor
  · rw [round2]
    apply div_nonneg _ (by norm_num)
    exact_mod_cast l0
  · rw [round2, div_le_iff₀ (by norm_num : (0 : ℚ) < 100)]
    calc ((rndHalfEven (100 * q) : ℤ) : ℚ) ≤ ((10000 : ℤ) : ℚ) := by exact_mod_cast l1
    _ = 100 * 100 := by norm_num

/-- The position-wise difference count over `zip` (as computed by
`analyze_dna_compatibility`) is the Hamming distance. -/
lemma countP_zip_eq_hammingDistance :
    ∀ (a b : List Char), (a.zip b).countP (fun p => p.1 != p.2) = hammingDistance a b := by
  intro a
  induction a with
  | nil => intro b; simp [hammingDistance]
  | cons c a' ih =>
    intro b
    cases b with
    | nil => simp [hammingDistance]
    | cons d b' =>
      show List.countP (fun p => p.1 != p.2) ((c, d) :: a'.zip b') = _
      rw [List.countP_cons, ih b']
      simp only [hammingDistance, List.length_cons, Nat.succ_min_succ,
        List.range_succ_eq_map, List.countP_cons, List.countP_map, Function.comp_def,
        List.getD_cons_zero, List.getD_cons_succ]

/-- Whatever `take` keeps satisfies `all` if the whole list does. -/
lemma all_take_of_all {p : Char → Bool} {l : List Char} (h : l.all p = true) (n : Nat) :
    (l.take n).all p = true := by
  rw [List.all_eq_true] at h ⊢
  exact fun c hc => h c (List.take_subset n l hc)

/-- Whatever `drop` keeps satisfies `all` if the whole list does. -/
lemma all_drop_of_all {p : Char → Bool} {l : List Char} (h : l.all p = true) (n : Nat) :
    (l.drop n).all p = true := by
  rw [List.all_eq_true] at h ⊢
  exact fun c hc => h c (List.drop_subset n l hc)

/-! ## Lemmas on the mutation loop -/

/-- A `random.choice(hex_chars)` outcome is a lowercase hex digit (the
in-range index never falls back to the default). -/
lemma getD_hex_chars_lower {j : Nat} (hj : j < 16) (c : Char) :
    isLowerHexDigit (hex_chars.getD j c) = true := by
  interval_cases j <;> rfl

/-- At mutation rate 0 and nonnegative random draws, the loop rewrites
nothing. -/
lemma mutateChars_zero {randoms : Nat → ℚ} (hr : ∀ i, 0 ≤ randoms i)
    (choices : Nat → Fin 16) :
    ∀ (l : List Char) (s : Nat), mutateChars 0 randoms choices s l = l := by
  intro l
  induction l with
  | nil => intro s; rfl
  | cons c rest ih =>
    intro s
    rw [mutateChars, if_neg (by exact not_lt.mpr (hr s)), ih]

/-- The mutation loop preserves length. -/
lemma mutateChars_length (rate : ℚ) (randoms : Nat → ℚ) (choices : Nat → Fin 16) :
    ∀ (l : List Char) (s : Nat), (mutateChars rate randoms choices s l).length = l.length := by
  intro l
  induction l with
  | nil => intro s; rfl
  | cons c rest ih =>
    intro s
    rw [mutateChars, List.length_cons, List.length_cons, ih]

/-- Each output position of the mutation loop is either the drawn hex digit
or the input character at that position. -/
lemma mutateChars_getD (rate : ℚ) (randoms : Nat → ℚ) (choices : Nat → Fin 16) (d : Char) :
    ∀ (l : List Char) (s i : Nat), i < l.length →
      (mutateChars rate randoms choices s l).getD i d =
        if randoms (s + i) < rate then hex_chars.getD (choices (s + i)).val (l.getD i d)
        else l.getD i d := by
  intro l
  induction l with
  | nil => intro s i hi; simp at hi
  | cons c rest ih =>
    intro s i hi
    cases i with
    | zero =>
      rw [mutateChars]
      simp only [List.getD_cons_zero, Nat.add_zero]
    | succ i' =>
      rw [mutateChars]
      simp only [List.getD_cons_succ]
      rw [ih (s + 1) i' (by simpa using hi)]
      have harith : s + 1 + i' = s + (i' + 1) := by omega
      rw [harith]

/-- The mutation loop preserves the all-lowercase-hex property. -/
lemma mutateChars_all_lower (rate : ℚ) (randoms : Nat → ℚ) (choices : Nat → Fin 16) :
    ∀ (l : List Char) (s : Nat), l.all isLowerHexDigit = true →
      (mutateChars rate randoms choices s l).all isLowerHexDigit = true := by
  intro l
  induction l with
  | nil => intro s _; rfl
  | cons c rest ih =>
    intro s h
    rw [List.all_cons, Bool.and_eq_true] at h
    rw [mutateChars, List.all_cons, Bool.and_eq_true]
    refine ⟨?_, ih (s + 1) h.2⟩
    split_ifs with hm
    · exact getD_hex_chars_lower (choices s).isLt c
    · exact h.1


/-! ## Claim theorems -/

/-- C1: `generate_dna` is a pure, deterministic function of its parameter
tuple — two invocations with identical prompt, temperature, top_p and model
arguments return the identical identifier string. -/
theorem generate_dna_deterministic (p₁ p₂ : List Char) (t₁ t₂ tp₁ tp₂ : PyFloat)
    (m₁ m₂ : List Char) (hp : p₁ = p₂) (ht : t₁ = t₂) (htp : tp₁ = tp₂)
    (hm : m₁ = m₂) :
    generate_dna p₁ t₁ tp₁ m₁ = generate_dna p₂ t₂ tp₂ m₂ := by
  rw [hp, ht, htp, hm]

/-- C1, witnessed at a concrete parameter tuple. -/
theorem generate_dna_deterministic_witness :
    generate_dna ("hi".toList) ⟨"0.7".toList⟩ ⟨"0.9".toList⟩ ("gpt-4".toList) =
      generate_dna ("hi".toList) ⟨"0.7".toList⟩ ⟨"0.9".toList⟩ ("gpt-4".toList) :=
  generate_dna_deterministic _ _ _ _ _ _ _ _ rfl rfl rfl rfl

/-- C2: for every parameter tuple and every persona input, the outputs of
`generate_dna` and `generate_persona_dna` are 64-character lowercase
hexadecimal strings and pass `validate_dna`. -/
theorem generate_outputs_validate (p : List Char) (t tp : PyFloat) (m : List Char)
    (pn : List Char) (traits : List (List Char × PyJson)) :
    validate_dna (.str (generate_dna p t tp m)) = true ∧
    (generate_dna p t tp m).length = 64 ∧
    (generate_dna p t tp m).all isLowerHexDigit = true ∧
    validate_dna (.str (generate_persona_dna pn traits)) = true ∧
    (generate_persona_dna pn traits).length = 64 ∧
    (generate_persona_dna pn traits).all isLowerHexDigit = true := by
  have key : ∀ msg : List Nat,
      validate_dna (.str ((hexdigest msg).take 64)) = true ∧
      ((hexdigest msg).take 64).length = 64 ∧
      ((hexdigest msg).take 64).all isLowerHexDigit = true := by
    intro msg
    have h64 := hexdigest_length msg
    have htake : (hexdigest msg).take 64 = hexdigest msg :=
      List.take_of_length_le (le_of_eq h64)
    rw [htake]
    exact ⟨validateStr_of_lower h64 (hexdigest_all_lower msg), h64,
      hexdigest_all_lower msg⟩
  simp only [generate_dna, generate_persona_dna]
  exact ⟨(key _).1, (key _).2.1, (key _).2.2, (key _).1, (key _).2.1, (key _).2.2⟩

/-- C3 counterexample: `validate_dna` accepts the 64-character uppercase
string of `A`s, whose characters are outside `0`–`9`, `a`–`f`, so the
claimed characterization (only lowercase hex strings pass) is false. -/
theorem validate_dna_uppercase_counterexample :
    validate_dna (.str (List.replicate 64 'A')) = true ∧
    (List.replicate 64 'A').all isLowerHexDigit = false := by
  exact ⟨by decide, by decide⟩

/-- C3 (amended): `validate_dna` returns true iff its argument is a string
of exactly 64 characters that CPython's base-16 integer parser accepts
(hex digits including uppercase and Unicode decimal digits, optional
surrounding whitespace, an optional sign, an optional `0x`/`0X` marker,
single underscores between digits); every 64-character lowercase-hex string
passes, and every non-string yields false.  Total, never raises. -/
theorem validate_dna_characterization :
    (∀ v : PyVal, validate_dna v = true ↔
      ∃ s : List Char, v = .str s ∧ s.length = 64 ∧ pyAcceptsHex s = true) ∧
    (∀ s : List Char, s.length = 64 → s.all isLowerHexDigit = true →
      validate_dna (.str s) = true) := by
  constructor
  · intro v
    constructor
    · intro h
      cases v with
      | str s =>
        have hlen : s.length = 64 := length_of_validateStr h
        refine ⟨s, rfl, hlen, ?_⟩
        rw [show validate_dna (.str s) = (if s.length = 64 then pyAcceptsHex s else false)
          from rfl, if_pos hlen] at h
        exact h
      | nonStr => exact absurd h (by simp [validate_dna])
    · rintro ⟨s, rfl, hlen, hacc⟩
      rw [show validate_dna (.str s) = (if s.length = 64 then pyAcceptsHex s else false)
        from rfl, if_pos hlen]
      exact hacc
  · intro s hlen hall
    exact validateStr_of_lower hlen hall

/-- C3 (amended), witnessed on a concrete lowercase identifier. -/
theorem validate_dna_characterization_witness :
    validate_dna (.str (List.replicate 64 'a')) = true :=
  validate_dna_characterization.2 (List.replicate 64 'a') (by decide) (by decide)

/-- C4: for inputs passing `validate_dna`, a crossover point in `[1, 63]`
produces the first `cp` characters of A followed by B's characters from
position `cp` through 63, and a crossover point outside `[1, 63]` behaves
exactly like the default 32. -/
theorem remix_dna_crossover_spec (a b : List Char) (cp : Int)
    (ha : validateStr a = true) (hb : validateStr b = true) :
    (1 ≤ cp → cp ≤ 63 →
      remix_dna a b cp = .ok (a.take cp.toNat ++ b.drop cp.toNat)) ∧
    ((cp < 1 ∨ 63 < cp) → remix_dna a b cp = remix_dna a b 32) := by
  have hv : (validateStr a && validateStr b) = true := by rw [ha, hb]; rfl
  constructor
  · intro h1 h2
    simp only [remix_dna, hv, Bool.not_true, Bool.false_eq_true, if_false]
    rw [if_neg (by omega : ¬ (cp < 1 ∨ 64 ≤ cp))]
  · intro h
    simp only [remix_dna, hv, Bool.not_true, Bool.false_eq_true, if_false]
    rw [if_pos (by omega : (cp < 1 ∨ 64 ≤ cp)),
      if_neg (by omega : ¬ ((32 : Int) < 1 ∨ 64 ≤ (32 : Int)))]

/-- C4, witnessed at the in-range crossover point 32. -/
theorem remix_dna_crossover_spec_witness :
    remix_dna (List.replicate 64 'a') (List.replicate 64 'b') 32 =
      .ok ((List.replicate 64 'a').take (Int.toNat 32) ++
        (List.replicate 64 'b').drop (Int.toNat 32)) :=
  (remix_dna_crossover_spec _ _ 32 (by decide) (by decide)).1 (by decide) (by decide)

/-- C5 counterexample: two inputs passing `validate_dna` — the second
carrying leading spaces, which `int(·, 16)` tolerates — remix into a string
that fails `validate_dna`, so remix output is not always a valid-format
identifier. -/
theorem remix_output_invalid_counterexample :
    validateStr (List.replicate 64 'a') = true ∧
    validateStr (List.replicate 32 ' ' ++ List.replicate 32 'a') = true ∧
    remix_dna (List.replicate 64 'a') (List.replicate 32 ' ' ++ List.replicate 32 'a') 16 =
      .ok (List.replicate 16 'a' ++ List.replicate 16 ' ' ++ List.replicate 32 'a') ∧
    validateStr (List.replicate 16 'a' ++ List.replicate 16 ' ' ++ List.replicate 32 'a') =
      false := by
  refine ⟨by decide, by decide, ?_, by decide⟩
  rfl

/-- C5 (amended): when both inputs are 64-character strings of lowercase hex
digits — the alphabet of identifiers the generators actually produce — remix
succeeds for every crossover point and its output again passes
`validate_dna`.  (For general `validate_dna`-passing inputs this fails:
`int(·, 16)` also admits whitespace, signs, base markers and underscores,
and splicing such strings can produce rejected ones.) -/
theorem remix_dna_output_valid (a b : List Char) (cp : Int)
    (hla : a.length = 64) (haa : a.all isLowerHexDigit = true)
    (hlb : b.length = 64) (hab : b.all isLowerHexDigit = true) :
    ∃ r, remix_dna a b cp = .ok r ∧ validateStr r = true ∧
      r.length = 64 ∧ r.all isLowerHexDigit = true := by
  have hv : (validateStr a && validateStr b) = true := by
    rw [validateStr_of_lower hla haa, validateStr_of_lower hlb hab]; rfl
  have hole : 1 ≤ (if cp < 1 ∨ 64 ≤ cp then (32 : Int) else cp).toNat ∧
      (if cp < 1 ∨ 64 ≤ cp then (32 : Int) else cp).toNat ≤ 63 := by
    split_ifs with hc <;> omega
  set k := (if cp < 1 ∨ 64 ≤ cp then (32 : Int) else cp).toNat with hk
  have hlen : (a.take k ++ b.drop k).length = 64 := by
    rw [List.length_append, List.length_take, List.length_drop, hla, hlb]
    omega
  have hall : (a.take k ++ b.drop k).all isLowerHexDigit = true := by
    rw [List.all_append, all_take_of_all haa k, all_drop_of_all hab k]
    rfl
  refine ⟨a.take k ++ b.drop k, ?_, validateStr_of_lower hlen hall, hlen, hall⟩
  simp only [remix_dna, hv, Bool.not_true, Bool.false_eq_true, if_false]

/-- C5 (amended), witnessed at an out-of-range crossover point on lowercase
identifiers. -/
theorem remix_dna_output_valid_witness :
    ∃ r, remix_dna (List.replicate 64 'b') (List.replicate 64 'c') 100 = .ok r ∧
      validateStr r = true ∧ r.length = 64 ∧ r.all isLowerHexDigit = true :=
  remix_dna_output_valid _ _ 100 (by decide) (by decide) (by decide) (by decide)

/-- C6: `analyze_dna_compatibility` returns the error value (without
raising) when either input fails `validate_dna`; on validated inputs it
reports the Hamming distance as `differences`, the similarity percentage
`(64 − differences)/64·100` rounded to two decimals (hence within
`[0, 100]`), crossover recommendation 32 above 50% similarity and 16
otherwise, and the High/Medium/Low label at the 70/40 thresholds. -/
theorem analyze_dna_compatibility_spec (a b : List Char) :
    ((validateStr a && validateStr b) = false →
      analyze_dna_compatibility a b = .error ("Invalid DNA format".toList)) ∧
    (validateStr a = true → validateStr b = true →
      ∃ rep, analyze_dna_compatibility a b = .ok rep ∧
        rep.differences = hammingDistance a b ∧
        rep.similarity_percentage =
          round2 ((64 - (rep.differences : ℚ)) / 64 * 100) ∧
        0 ≤ rep.similarity_percentage ∧ rep.similarity_percentage ≤ 100 ∧
        rep.recommended_crossover =
          (if 50 < (64 - (rep.differences : ℚ)) / 64 * 100 then 32 else 16) ∧
        rep.compatibility =
          (if 70 < (64 - (rep.differences : ℚ)) / 64 * 100 then "High".toList
           else if 40 < (64 - (rep.differences : ℚ)) / 64 * 100 then "Medium".toList
           else "Low".toList)) := by
  constructor
  · intro h
    simp only [analyze_dna_compatibility, h, Bool.not_false, if_true]
  · intro ha hb
    have hv : (validateStr a && validateStr b) = true := by rw [ha, hb]; rfl
    have hd : ((a.zip b).countP fun p => p.1 != p.2) ≤ 64 := by
      calc ((a.zip b).countP fun p => p.1 != p.2) ≤ (a.zip b).length :=
            List.countP_le_length _
      _ = 64 := by
            rw [List.length_zip, length_of_validateStr ha, length_of_validateStr hb]
            simp
    have hdq : (((a.zip b).countP fun p => p.1 != p.2 : Nat) : ℚ) ≤ 64 := by
      exact_mod_cast hd
    have hdq0 : (0 : ℚ) ≤ (((a.zip b).countP fun p => p.1 != p.2 : Nat) : ℚ) := by
      positivity
    have hsim0 : (0 : ℚ) ≤ (64 - (((a.zip b).countP fun p => p.1 != p.2 : Nat) : ℚ)) / 64 * 100 := by
      apply mul_nonneg _ (by norm_num)
      apply div_nonneg _ (by norm_num)
      linarith
    have hsim1 : (64 - (((a.zip b).countP fun p => p.1 != p.2 : Nat) : ℚ)) / 64 * 100 ≤ 100 := by
      rw [div_mul_eq_mul_div, div_le_iff₀ (by norm_num : (0 : ℚ) < 64)]
      linarith
    simp only [analyze_dna_compatibility, hv, Bool.not_true, Bool.false_eq_true, if_false]
    exact ⟨_, rfl, countP_zip_eq_hammingDistance a b, rfl,
      (round2_bounds hsim0 hsim1).1, (round2_bounds hsim0 hsim1).2, rfl, rfl⟩

/-- C6, witnessed on a concrete invalid pair (error value) and a concrete
valid pair (Hamming distance reported). -/
theorem analyze_dna_compatibility_spec_witness :
    analyze_dna_compatibility ("g".toList) (List.replicate 64 'a') =
      .error ("Invalid DNA format".toList) ∧
    ∃ rep, analyze_dna_compatibility (List.replicate 64 'a') (List.replicate 64 'a') =
        .ok rep ∧
      rep.differences = hammingDistance (List.replicate 64 'a') (List.replicate 64 'a') := by
  refine ⟨(analyze_dna_compatibility_spec _ _).1 (by decide), ?_⟩
  obtain ⟨rep, h1, h2, -⟩ :=
    (analyze_dna_compatibility_spec (List.replicate 64 'a') (List.replicate 64 'a')).2
      (by decide) (by decide)
  exact ⟨rep, h1, h2⟩

/-- C7: on every identifier passing `validate_dna`, `decode_dna` succeeds
and is deterministic; its temperature is `0.1 + (S mod 20)·0.1` (so within
the 20 values spanning 0.1–2.0) and its top_p `0.1 + (S mod 9)·0.1` (the 9
values spanning 0.1–0.9) for `S` the sum of all 64 character codes, and its
model comes from the fixed first-character table with the default
fallback. -/
theorem decode_dna_spec (dna : List Char) (h : validateStr dna = true) :
    decode_dna dna = decode_dna dna ∧
    ∃ r, decode_dna dna = some r ∧
      r.temperature = 1 / 10 + (((dna.map Char.toNat).sum % 20 : Nat) : ℚ) * (1 / 10) ∧
      1 / 10 ≤ r.temperature ∧ r.temperature ≤ 2 ∧
      r.top_p = 1 / 10 + (((dna.map Char.toNat).sum % 9 : Nat) : ℚ) * (1 / 10) ∧
      1 / 10 ≤ r.top_p ∧ r.top_p ≤ 9 / 10 ∧
      ∃ c0 rest, dna = c0 :: rest ∧
        r.model = (model_map.lookup c0).getD ("dolphin-phi:latest".toList) := by
  refine ⟨rfl, ?_⟩
  cases dna with
  | nil => exact absurd (length_of_validateStr h) (by simp)
  | cons c0 rest =>
    have hcollapse : ∀ k : Nat,
        round1 (1 / 10 + (k : ℚ) * (1 / 10)) = 1 / 10 + (k : ℚ) * (1 / 10) := by
      intro k
      have harg : (1 : ℚ) / 10 + (k : ℚ) * (1 / 10) = (((1 + k : ℤ)) : ℚ) / 10 := by
        push_cast
        ring
      rw [harg, round1_exact]
    have hbound20 : ∀ k : Nat, k < 20 →
        (1 : ℚ) / 10 ≤ round1 (1 / 10 + (k : ℚ) * (1 / 10)) ∧
        round1 (1 / 10 + (k : ℚ) * (1 / 10)) ≤ 2 := by
      intro k hk
      rw [hcollapse]
      have hk1 : (k : ℚ) ≤ 19 := by exact_mod_cast Nat.lt_succ_iff.mp (by omega)
      have hk0 : (0 : ℚ) ≤ (k : ℚ) := by positivity
      constructor <;> linarith
    have hbound9 : ∀ k : Nat, k < 9 →
        (1 : ℚ) / 10 ≤ round1 (1 / 10 + (k : ℚ) * (1 / 10)) ∧
        round1 (1 / 10 + (k : ℚ) * (1 / 10)) ≤ 9 / 10 := by
      intro k hk
      rw [hcollapse]
      have hk1 : (k : ℚ) ≤ 8 := by exact_mod_cast Nat.lt_succ_iff.mp (by omega)
      have hk0 : (0 : ℚ) ≤ (k : ℚ) := by positivity
      constructor <;> linarith
    refine ⟨_, rfl, hcollapse _,
      (hbound20 _ (Nat.mod_lt _ (by norm_num))).1,
      (hbound20 _ (Nat.mod_lt _ (by norm_num))).2,
      hcollapse _,
      (hbound9 _ (Nat.mod_lt _ (by norm_num))).1,
      (hbound9 _ (Nat.mod_lt _ (by norm_num))).2,
      c0, rest, rfl, rfl⟩

/-- C7, witnessed on a concrete identifier. -/
theorem decode_dna_spec_witness :
    ∃ r, decode_dna (List.replicate 64 'a') = some r ∧ 1 / 10 ≤ r.temperature := by
  obtain ⟨-, r, h1, -, h3, -⟩ := decode_dna_spec (List.replicate 64 'a') (by decide)
  exact ⟨r, h1, h3⟩

/-- C8: `remix_dna` and `mutate_dna` raise the invalid-format `ValueError`
exactly when an identifier argument fails `validate_dna`, and return
normally (never raising) when all identifier arguments validate; the model
propagates the error to the caller — neither function recovers it. -/
theorem remix_mutate_raise_iff :
    (∀ (a b : List Char) (cp : Int),
      if (validateStr a && validateStr b) = true
      then ∃ r, remix_dna a b cp = .ok r
      else remix_dna a b cp = .error (.valueError ("Invalid DNA format".toList))) ∧
    (∀ (dna : List Char) (rate : ℚ) (randoms : Nat → ℚ) (choices : Nat → Fin 16),
      if validateStr dna = true
      then ∃ r, mutate_dna dna rate randoms choices = .ok r
      else mutate_dna dna rate randoms choices =
        .error (.valueError ("Invalid DNA format".toList))) := by
  constructor
  · intro a b cp
    by_cases hv : (validateStr a && validateStr b) = true
    · rw [if_pos hv]
      refine ⟨a.take ((if cp < 1 ∨ 64 ≤ cp then (32 : Int) else cp).toNat) ++
        b.drop ((if cp < 1 ∨ 64 ≤ cp then (32 : Int) else cp).toNat), ?_⟩
      simp only [remix_dna, hv, Bool.not_true, Bool.false_eq_true, if_false]
    · rw [if_neg hv]
      have hv' : (validateStr a && validateStr b) = false := by
        simpa using hv
      simp only [remix_dna, hv', Bool.not_false, if_true]
  · intro dna rate randoms choices
    by_cases hv : validateStr dna = true
    · rw [if_pos hv]
      refine ⟨mutateChars rate randoms choices 0 dna, ?_⟩
      simp only [mutate_dna, hv, if_true]
    · rw [if_neg hv]
      have hv' : validateStr dna = false := by
        simpa using hv
      simp only [mutate_dna, hv', Bool.false_eq_true, if_false]

/-- C8, witnessed on a concrete invalid first argument. -/
theorem remix_mutate_raise_iff_witness :
    remix_dna ("bad".toList) (List.replicate 64 'a') 32 =
      .error (.valueError ("Invalid DNA format".toList)) := by
  have h := remix_mutate_raise_iff.1 ("bad".toList) (List.replicate 64 'a') 32
  rw [if_neg (by decide)] at h
  exact h

/-- C9 counterexample: an identifier passing `validate_dna` but containing
spaces is returned unchanged by `mutate_dna` at mutation rate 0 — a possible
outcome of the random source — so the output is not a string of 64 valid
hexadecimal characters. -/
theorem mutate_output_not_hex_counterexample :
    validateStr (List.replicate 32 'a' ++ List.replicate 32 ' ') = true ∧
    mutate_dna (List.replicate 32 'a' ++ List.replicate 32 ' ') 0
        (fun _ => 1 / 2) (fun _ => 0) =
      .ok (List.replicate 32 'a' ++ List.replicate 32 ' ') ∧
    (List.replicate 32 'a' ++ List.replicate 32 ' ').all isHexDig = false := by
  refine ⟨by decide, ?_, by decide⟩
  rw [mutate_dna, if_pos (by decide)]
  rw [mutateChars_zero (fun i => by norm_num) (fun _ => 0) _ 0]

/-- C9 (amended): for every identifier passing `validate_dna` and
nonnegative random draws, mutation rate 0 returns the input unchanged; for
every mutation rate and random outcome the output has 64 characters, each
either a freshly drawn lowercase hex digit or the input's character at that
position — in particular, an input of 64 lowercase hex digits always yields
64 valid hex characters.  (The unamended claim fails since `validate_dna`
admits identifiers with non-hex characters, which survive at unmutated
positions.) -/
theorem mutate_dna_spec (dna : List Char) (rate : ℚ) (randoms : Nat → ℚ)
    (choices : Nat → Fin 16) (h : validateStr dna = true)
    (hr : ∀ i, 0 ≤ randoms i) :
    mutate_dna dna 0 randoms choices = .ok dna ∧
    ∃ r, mutate_dna dna rate randoms choices = .ok r ∧ r.length = 64 ∧
      (∀ i, i < 64 →
        isLowerHexDigit (r.getD i ' ') = true ∨ r.getD i ' ' = dna.getD i ' ') ∧
      (dna.all isLowerHexDigit = true → r.all isLowerHexDigit = true) := by
  have hlen := length_of_validateStr h
  constructor
  · rw [mutate_dna, if_pos h, mutateChars_zero hr choices dna 0]
  · refine ⟨_, by rw [mutate_dna, if_pos h], ?_, ?_, ?_⟩
    · rw [mutateChars_length, hlen]
    · intro i hi
      rw [mutateChars_getD rate randoms choices ' ' dna 0 i (by omega)]
      simp only [Nat.zero_add]
      split_ifs with hc
      · exact Or.inl (getD_hex_chars_lower (choices i).isLt _)
      · exact Or.inr rfl
    · intro hall
      exact mutateChars_all_lower rate randoms choices dna 0 hall

/-- C9 (amended), witnessed at rate 0 on a lowercase identifier. -/
theorem mutate_dna_spec_witness :
    mutate_dna (List.replicate 64 'c') 0 (fun _ => 1 / 2) (fun _ => 3) =
      .ok (List.replicate 64 'c') :=
  (mutate_dna_spec (List.replicate 64 'c') 0 (fun _ => 1 / 2) (fun _ => 3)
    (by decide) (fun i => by norm_num)).1

/-- C10: `decode_dna` performs no format validation — malformed strings such
as 64 `z`s or a single `!` still decode — yet the empty string raises
(`dna[0]` is an `IndexError`), so decode is not total over all strings. -/
theorem decode_dna_not_total :
    decode_dna [] = none ∧
    (decode_dna (List.replicate 64 'z')).isSome = true ∧
    (decode_dna ['!']).isSome = true := by
  exact ⟨rfl, rfl, rfl⟩

end DnaUtils
